import Mathlib

/-
Verification of the telemetry decoder of sac2020-flightcode
(src/sac2020_lib/telem_decode.cpp): the `state_name` switch, the CSV row
formatting performed by the `sprintf` in `main`, and the `fread` decode loop.
The record layout and the `VehicleState_t` enumeration are declared in
`sac2020_state.h`, which the repository snapshot does not include; those
definitions are modelled from the specification and marked as such.
-/

namespace Telem

/-- Decimal digit character: `digitChar d` is the ASCII character for the digit
`d < 10`, as produced by printf's decimal conversions. -/
def digitChar (d : Nat) : Char := Char.ofNat (48 + d)

/-- Fuel-driven most-significant-first decimal digit characters of a natural
number (printf's unsigned decimal conversion, empty at zero). -/
def decDigits : Nat → Nat → List Char
  | 0, _ => []
  | fuel + 1, n => if n = 0 then [] else decDigits fuel (n / 10) ++ [digitChar (n % 10)]

/-- Decimal rendering of a natural number as printed by printf. -/
def natToDec (n : Nat) : String := if n = 0 then "0" else String.mk (decDigits n n)

/-- Value of a 32-bit pattern under twos-complement signed interpretation, the
reading printf's %d conversion gives a 32-bit argument. -/
def toSigned32 (n : Nat) : Int :=
  if n % 2 ^ 32 < 2 ^ 31 then ((n % 2 ^ 32 : Nat) : Int) else ((n % 2 ^ 32 : Nat) : Int) - 2 ^ 32

/-- Decimal rendering of a signed integer as printed by printf's %d. -/
def intToDec (i : Int) : String := if i < 0 then "-" ++ natToDec (-i).toNat else natToDec i.toNat

/-- Nearest integer to the fraction `n / d` with ties to even: the correctly
rounded decimal conversion glibc printf performs in the default rounding mode. -/
def rndHalfEven (n d : Nat) : Nat :=
  let q := n / d
  let r := n % d
  if 2 * r < d then q
  else if d < 2 * r then q + 1
  else if q % 2 = 0 then q else q + 1

/-- Value categories of an IEEE-754 binary32 value as printf's %f conversion
distinguishes them: NaN (with sign), infinity (with sign), or a finite value
given by a sign and a magnitude; every finite binary32 magnitude is an exact
multiple of 2^(-149), so the magnitude is held as `num` with value num/2^149. -/
inductive CFloat where
  | nan (sgn : Bool)
  | inf (sgn : Bool)
  | finite (sgn : Bool) (num : Nat)
deriving DecidableEq

/-- Interpretation of a 32-bit pattern as an IEEE-754 binary32 value: the value
`fread` deposits in a C `float` field from the raw dump bytes. A normal value
with biased exponent `e` and mantissa `m` is (2^23+m)·2^(e-150), held as the
numerator over 2^149; a subnormal is m·2^(-149). -/
def decodeF32 (bits : Nat) : CFloat :=
  let s : Bool := bits / 2 ^ 31 % 2 = 1
  let e : Nat := bits / 2 ^ 23 % 2 ^ 8
  let m : Nat := bits % 2 ^ 23
  if e = 255 then (if m = 0 then .inf s else .nan s)
  else if e = 0 then .finite s m
  else .finite s ((2 ^ 23 + m) * 2 ^ (e - 1))

/-- Fractional part of printf's %.4f: exactly four digits, zero-padded. -/
def pad4 (n : Nat) : String :=
  String.mk [digitChar (n / 1000 % 10), digitChar (n / 100 % 10), digitChar (n / 10 % 10),
    digitChar (n % 10)]

/-- Rendering of a binary32 value by printf's %.4f conversion: fixed-point with
exactly four fractional digits for finite values, the nan/inf tokens otherwise. -/
def fmt4 : CFloat → String
  | .nan sgn => (if sgn then "-" else "") ++ "nan"
  | .inf sgn => (if sgn then "-" else "") ++ "inf"
  | .finite sgn num =>
    let u := rndHalfEven (num * 10000) (2 ^ 149)
    (if sgn then "-" else "") ++ natToDec (u / 10000) ++ "." ++ pad4 (u % 10000)

/-- Modelled from the spec: `VehicleState_t::PRELTOFF` (pre-liftoff) of
`sac2020_state.h` (not under src/); codes are the consecutive values of a default
C++ enum in the spec's declared order. -/
def PRELTOFF : Nat := 0

/-- Modelled from the spec: `VehicleState_t::PWFLIGHT` (powered flight). -/
def PWFLIGHT : Nat := 1

/-- Modelled from the spec: `VehicleState_t::CRUISING` (coasting). -/
def CRUISING : Nat := 2

/-- Modelled from the spec: `VehicleState_t::CRSCANRD` (cruising, scan/read). -/
def CRSCANRD : Nat := 3

/-- Modelled from the spec: `VehicleState_t::FALLDROG` (fall under drogue). -/
def FALLDROG : Nat := 4

/-- Modelled from the spec: `VehicleState_t::FALLMAIN` (fall under main). -/
def FALLMAIN : Nat := 5

/-- Modelled from the spec: `VehicleState_t::CONCLUDE` (concluded/landed). -/
def CONCLUDE : Nat := 6

/-- The seven defined state codes, in enumeration order. -/
def definedCodes : List Nat :=
  [PRELTOFF, PWFLIGHT, CRUISING, CRSCANRD, FALLDROG, FALLMAIN, CONCLUDE]

/-- The `state_name` function of telem_decode.cpp: the switch mapping a
`uint8_t` state code to its canonical label, defaulting to "UNKNOWN". -/
def state_name (state : Nat) : String :=
  if state = PRELTOFF then "PRELTOFF"
  else if state = PWFLIGHT then "PWFLIGHT"
  else if state = CRUISING then "CRUISING"
  else if state = CRSCANRD then "CRSCANRD"
  else if state = FALLDROG then "FALLDROG"
  else if state = FALLMAIN then "FALLMAIN"
  else if state = CONCLUDE then "CONCLUDE"
  else "UNKNOWN"

/-- Modelled from the spec: the `MainStateVector_t` record of `sac2020_state.h`
(not under src/), one field per spec section 3 in declaration order. Each
floating-point field is held as its raw 32-bit pattern (what `fread` copies from
the dump), `state` as one byte, `imu_temp` as a raw 32-bit pattern read back
signed by the %d conversion. -/
structure MainStateVector where
  time : Nat
  state : Nat
  altitude : Nat
  velocity : Nat
  acceleration : Nat
  pressure : Nat
  temperature : Nat
  baro_altitude : Nat
  imu_temp : Nat
  accel_x : Nat
  accel_y : Nat
  accel_z : Nat
  accel_vertical : Nat
  gyro_x : Nat
  gyro_y : Nat
  gyro_z : Nat
  quat_w : Nat
  quat_x : Nat
  quat_y : Nat
  quat_z : Nat
  launchpad_altitude : Nat
deriving DecidableEq

/-- Modelled from the spec: `sizeof(MainStateVector_t)` under the spec's tightly
packed layout — nineteen 4-byte floats, one state byte, one 4-byte integer. -/
def recordSize : Nat := 81

/-- Byte `i` of a record buffer (0 when out of range). -/
def byteAt (l : List Nat) (i : Nat) : Nat := l.getD i 0

/-- Little-endian 32-bit read at offset `i` of a record buffer. -/
def rd32 (l : List Nat) (i : Nat) : Nat :=
  byteAt l i + 256 * byteAt l (i + 1) + 65536 * byteAt l (i + 2) + 16777216 * byteAt l (i + 3)

/-- Modelled from the spec: reinterpretation of one record-sized byte buffer as a
`MainStateVector_t`, as `fread(&vec, sizeof(vec), 1, ...)` performs it, with the
spec's field order and the packing fixed above. -/
def parseRecord (l : List Nat) : MainStateVector where
  time := rd32 l 0
  state := byteAt l 4
  altitude := rd32 l 5
  velocity := rd32 l 9
  acceleration := rd32 l 13
  pressure := rd32 l 17
  temperature := rd32 l 21
  baro_altitude := rd32 l 25
  imu_temp := rd32 l 29
  accel_x := rd32 l 33
  accel_y := rd32 l 37
  accel_z := rd32 l 41
  accel_vertical := rd32 l 45
  gyro_x := rd32 l 49
  gyro_y := rd32 l 53
  gyro_z := rd32 l 57
  quat_w := rd32 l 61
  quat_x := rd32 l 65
  quat_y := rd32 l 69
  quat_z := rd32 l 73
  launchpad_altitude := rd32 l 77

/-- Little-endian 32-bit byte encoding. -/
def le32 (n : Nat) : List Nat := [n % 256, n / 256 % 256, n / 65536 % 256, n / 16777216 % 256]

/-- Modelled from the spec: the producer's encoding of one record into dump bytes
per the Record Schema (same field order and packing as `parseRecord`). -/
def encodeRecord (r : MainStateVector) : List Nat :=
  le32 r.time ++ [r.state] ++ le32 r.altitude ++ le32 r.velocity ++ le32 r.acceleration ++
  le32 r.pressure ++ le32 r.temperature ++ le32 r.baro_altitude ++ le32 r.imu_temp ++
  le32 r.accel_x ++ le32 r.accel_y ++ le32 r.accel_z ++ le32 r.accel_vertical ++
  le32 r.gyro_x ++ le32 r.gyro_y ++ le32 r.gyro_z ++
  le32 r.quat_w ++ le32 r.quat_x ++ le32 r.quat_y ++ le32 r.quat_z ++
  le32 r.launchpad_altitude

/-- The twenty-one fields of one CSV row, in the exact argument order of the
`sprintf` call in `main`: float fields through %.4f, the state through
`state_name`, `imu_temp` through %d. -/
def formatFields (r : MainStateVector) : List String :=
  [fmt4 (decodeF32 r.time), state_name r.state, fmt4 (decodeF32 r.altitude),
   fmt4 (decodeF32 r.velocity), fmt4 (decodeF32 r.acceleration), fmt4 (decodeF32 r.pressure),
   fmt4 (decodeF32 r.temperature), fmt4 (decodeF32 r.baro_altitude),
   intToDec (toSigned32 r.imu_temp),
   fmt4 (decodeF32 r.accel_x), fmt4 (decodeF32 r.accel_y), fmt4 (decodeF32 r.accel_z),
   fmt4 (decodeF32 r.accel_vertical), fmt4 (decodeF32 r.gyro_x), fmt4 (decodeF32 r.gyro_y),
   fmt4 (decodeF32 r.gyro_z), fmt4 (decodeF32 r.quat_w), fmt4 (decodeF32 r.quat_x),
   fmt4 (decodeF32 r.quat_y), fmt4 (decodeF32 r.quat_z), fmt4 (decodeF32 r.launchpad_altitude)]

/-- Character content of one CSV row as the `sprintf` format string builds it:
the fields joined by single commas, terminated by a single newline. -/
def rowChars (r : MainStateVector) : List Char :=
  List.intercalate [','] ((formatFields r).map String.data) ++ ['\n']

/-- The row written for one record (the `record` buffer passed to `fputs`). -/
def formatRow (r : MainStateVector) : String := String.mk (rowChars r)

/-- The fixed header row `main` writes through `fputs` before the decode loop. -/
def header : String :=
  "Time,State,Filtered Altitude,Filtered Velocity,Filtered Acceleration,Pressure,Temperature,Barometer Altitude,IMU Temperature,Accel X,Accel Y,Accel Z,Accel Vertical,Gyro X,Gyro Y,Gyro Z,Quat W,Quat X,Quat Y,Quat Z,LP Altitude\n"

/-- The `while (fread(...) > 0)` loop of `main`: while a full record remains,
consume it, bump the `uint32_t` packet counter, format the row and append it to
the output file; stop at end-of-stream or on a short read. Fuel bounds the
iteration count by the remaining stream length, making the recursion structural. -/
def mainLoop : Nat → List Nat → Nat → List Char → Nat × List Char
  | 0, _, count, out => (count, out)
  | fuel + 1, bs, count, out =>
    if recordSize ≤ bs.length then
      mainLoop fuel (bs.drop recordSize) ((count + 1) % 2 ^ 32)
        (out ++ rowChars (parseRecord (bs.take recordSize)))
    else (count, out)

/-- Observable outcome of one run of `main`: a normal completion carrying the
final output-file content and the console line, or the undefined behavior `main`
reaches when the input `fopen` failed and `fread` is applied to a NULL stream,
carrying the output-file content already written at that point. -/
inductive RunResult where
  | ok (outFile : List Char) (console : List Char)
  | ub (outFile : List Char)
deriving DecidableEq

/-- Opening the output file with `fopen(..., "w")`: truncates prior content. -/
def openOutputW (_prior : List Char) : List Char := []

/-- The `main` of telem_decode.cpp over the input-open outcome (`none` meaning
`fopen` returned NULL) and the prior content of the output file: open the output
in mode "w" (truncating), write the header, then run the decode loop and print
the packet count. `main` never checks the input `fopen` result, so with a NULL
input stream the header is still written and the first `fread` call is undefined
behavior. -/
def main_run (input : Option (List Nat)) (prior : List Char) : RunResult :=
  let out0 := openOutputW prior ++ header.data
  match input with
  | none => .ub out0
  | some bs =>
    let res := mainLoop bs.length bs 0 out0
    .ok res.2 (("Decoded " ++ intToDec (toSigned32 res.1) ++ " telemetry packets\n").data)

/-- Output-file content at the end of a run (or at the point UB is reached). -/
def runOutFile : RunResult → List Char
  | .ok o _ => o
  | .ub o => o

/-- Console line of a run, when the run reaches its final printf. -/
def runConsole : RunResult → Option (List Char)
  | .ok _ c => some c
  | .ub _ => none

/-- Fuel-driven list of the complete records at the head of a byte stream. -/
def decodeStreamFuel : Nat → List Nat → List MainStateVector
  | 0, _ => []
  | fuel + 1, bs =>
    if recordSize ≤ bs.length then
      parseRecord (bs.take recordSize) :: decodeStreamFuel fuel (bs.drop recordSize)
    else []

/-- The sequence of complete records a byte stream contains, in stream order:
exactly the records the decode loop reads before end-of-stream. -/
def decodeStream (bs : List Nat) : List MainStateVector := decodeStreamFuel bs.length bs

/-- Control state of the decode loop: still reading, with the unconsumed suffix
of the stream, or finished. -/
inductive DecoderState where
  | Reading (rest : List Nat)
  | Done
deriving DecidableEq

/-- One iteration of the decode loop as a step of the two-state machine: from
`Reading` either a full record is consumed and emitted, or on end-of-stream or a
short read the machine moves to `Done`; `Done` steps to itself emitting nothing. -/
def step : DecoderState → DecoderState × Option MainStateVector
  | .Reading rest =>
    if recordSize ≤ rest.length then
      (.Reading (rest.drop recordSize), some (parseRecord (rest.take recordSize)))
    else (.Done, none)
  | .Done => (.Done, none)

/-- Removal of one optional leading minus sign. -/
def stripSign (l : List Char) : List Char :=
  match l with
  | c :: t => if c = '-' then t else c :: t
  | [] => []

/-- A string of the spec's fixed-point shape: an optional minus sign, a nonempty
run of decimal digits, one point, then exactly four decimal digits. -/
def isFixed4 (s : String) : Bool :=
  match (stripSign s.data).splitOn '.' with
  | [ip, fp] => !ip.isEmpty && fp.length == 4 && ip.all Char.isDigit && fp.all Char.isDigit
  | _ => false

/-- A string of the spec's plain-decimal-integer shape: an optional minus sign
then a nonempty run of decimal digits, nothing else. -/
def isPlainInt (s : String) : Bool :=
  !(stripSign s.data).isEmpty && (stripSign s.data).all Char.isDigit

/-- A finite binary32 bit pattern: exponent field not all-ones. -/
def finiteBits (bits : Nat) : Bool := bits / 2 ^ 23 % 2 ^ 8 != 255

/-- A NaN binary32 bit pattern: exponent all-ones, mantissa nonzero. -/
def nanBits (bits : Nat) : Bool :=
  decide (bits / 2 ^ 23 % 2 ^ 8 = 255) && decide (bits % 2 ^ 23 ≠ 0)

/-- An infinity binary32 bit pattern: exponent all-ones, mantissa zero. -/
def infBits (bits : Nat) : Bool :=
  decide (bits / 2 ^ 23 % 2 ^ 8 = 255) && decide (bits % 2 ^ 23 = 0)

/-- The nineteen float fields of a record, in schema order. -/
def floatFields (r : MainStateVector) : List Nat :=
  [r.time, r.altitude, r.velocity, r.acceleration, r.pressure, r.temperature,
   r.baro_altitude, r.accel_x, r.accel_y, r.accel_z, r.accel_vertical,
   r.gyro_x, r.gyro_y, r.gyro_z, r.quat_w, r.quat_x, r.quat_y, r.quat_z,
   r.launchpad_altitude]

/-- All nineteen float fields of a record hold finite binary32 patterns. -/
def recordFinite (r : MainStateVector) : Bool :=
  (floatFields r).all finiteBits

/-- Every field value of a record is representable in its schema slot: 32-bit
fields below 2^32, the state byte below 256. -/
def validRecord (r : MainStateVector) : Bool :=
  decide (r.state < 256) && decide (r.imu_temp < 2 ^ 32) &&
  (floatFields r).all fun v => decide (v < 2 ^ 32)

/-- The all-zero record: every byte of the buffer zero. -/
def zeroRecord : MainStateVector := parseRecord (List.replicate 81 0)

/-- The all-zero record with its time field holding a quiet-NaN binary32 bit
pattern (0x7FC00000). -/
def nanTimeRecord : MainStateVector := { zeroRecord with time := 2143289344 }

/-- The all-zero record with its time field holding the negative-infinity
binary32 bit pattern (0xFF800000). -/
def infTimeRecord : MainStateVector := { zeroRecord with time := 4286578688 }

/-- The positions of the nineteen %.4f-rendered fields within a CSV row. -/
def floatFieldIndexes : List Nat :=
  [0, 2, 3, 4, 5, 6, 7, 9, 10, 11, 12, 13, 14, 15, 16, 17, 18, 19, 20]

/-- Field `i` of a formatted row, the empty string when out of range. -/
def fieldAt (r : MainStateVector) (i : Nat) : String :=
  (formatFields r).getD i (String.mk [])

/-- A digit character is none of the separator and structure characters. -/
lemma digit_ne_of_isDigit (c : Char) (h : c.isDigit = true) :
    c ≠ ',' ∧ c ≠ '\n' ∧ c ≠ '.' ∧ c ≠ '-' := by
  refine ⟨?_, ?_, ?_, ?_⟩ <;> rintro rfl <;> exact absurd h (by decide)

/-- The character of a digit below ten is a digit character. -/
lemma digitChar_isDigit (d : Nat) (h : d < 10) : (digitChar d).isDigit = true := by
  have hall : ∀ e : Nat, e < 10 → (digitChar e).isDigit = true := by decide
  exact hall d h

/-- Every character produced by `decDigits` is a digit. -/
lemma decDigits_digits : ∀ fuel n : Nat, ∀ c ∈ decDigits fuel n, c.isDigit = true := by
  intro fuel
  induction fuel with
  | zero => intro n c hc; simp [decDigits] at hc
  | succ f ih =>
    intro n c hc
    by_cases hn : n = 0
    · simp [decDigits, hn] at hc
    · simp only [decDigits, hn, if_false, List.mem_append, List.mem_singleton] at hc
      rcases hc with hc | hc
      · exact ih _ _ hc
      · subst hc; exact digitChar_isDigit _ (Nat.mod_lt _ (by omega))

/-- The decimal rendering of a natural number is a nonempty string of digits. -/
lemma natToDec_spec (n : Nat) :
    (natToDec n).data ≠ [] ∧ ∀ c ∈ (natToDec n).data, c.isDigit = true := by
  by_cases hn : n = 0
  · subst hn
    refine ⟨by decide, ?_⟩
    intro c hc
    simp [natToDec] at hc
    subst hc; decide
  · have hdata : (natToDec n).data = decDigits n n := by simp [natToDec, hn]
    refine ⟨?_, ?_⟩
    · rw [hdata]
      cases n with
      | zero => exact absurd rfl hn
      | succ m => simp [decDigits]
    · intro c hc
      rw [hdata] at hc
      exact decDigits_digits n n c hc

/-- The padded fractional part has exactly four characters, all digits. -/
lemma pad4_spec (n : Nat) :
    (pad4 n).data.length = 4 ∧ ∀ c ∈ (pad4 n).data, c.isDigit = true := by
  refine ⟨rfl, ?_⟩
  intro c hc
  simp [pad4] at hc
  rcases hc with h | h | h | h <;> subst h <;>
    exact digitChar_isDigit _ (Nat.mod_lt _ (by omega))

/-- Stripping the sign from a list headed by a non-minus character is the identity. -/
lemma stripSign_of_ne (c : Char) (t : List Char) (h : c ≠ '-') :
    stripSign (c :: t) = c :: t := by
  simp [stripSign, h]

/-- The %d rendering of any signed integer has the plain-decimal-integer shape. -/
lemma intToDec_plain (i : Int) : isPlainInt (intToDec i) = true := by
  by_cases hi : i < 0
  · have hdata : (intToDec i).data = '-' :: (natToDec (-i).toNat).data := by
      simp [intToDec, hi, String.data_append]
    obtain ⟨hne, hdig⟩ := natToDec_spec (-i).toNat
    have hstrip : stripSign ('-' :: (natToDec (-i).toNat).data) = (natToDec (-i).toNat).data := by
      simp [stripSign]
    simp only [isPlainInt, hdata, hstrip]
    simp only [Bool.and_eq_true, Bool.not_eq_true', List.isEmpty_eq_false, List.all_eq_true]
    exact ⟨hne, fun c hc => hdig c hc⟩
  · have hdata : (intToDec i).data = (natToDec i.toNat).data := by simp [intToDec, hi]
    obtain ⟨hne, hdig⟩ := natToDec_spec i.toNat
    obtain ⟨c, t, hct⟩ : ∃ c t, (natToDec i.toNat).data = c :: t := by
      cases hd : (natToDec i.toNat).data with
      | nil => exact absurd hd hne
      | cons c t => exact ⟨c, t, rfl⟩
    have hc : c.isDigit = true := hdig c (by rw [hct]; exact List.mem_cons_self c t)
    have hcne : c ≠ '-' := (digit_ne_of_isDigit c hc).2.2.2
    simp only [isPlainInt, hdata, hct, stripSign_of_ne c t hcne]
    simp only [Bool.and_eq_true, Bool.not_eq_true', List.isEmpty_eq_false, List.all_eq_true]
    refine ⟨by simp, fun x hx => hdig x (by rw [hct]; exact hx)⟩

/-- Unfolding of the %.4f rendering of a finite value. -/
lemma fmt4_finite_eq (sgn : Bool) (num : Nat) :
    fmt4 (.finite sgn num) =
      (if sgn then "-" else "") ++ natToDec (rndHalfEven (num * 10000) (2 ^ 149) / 10000) ++
        "." ++ pad4 (rndHalfEven (num * 10000) (2 ^ 149) % 10000) := rfl

/-- The %.4f rendering of a finite value as one explicit character list. -/
lemma fmt4_finite_mk (sgn : Bool) (num : Nat) :
    fmt4 (.finite sgn num) =
      String.mk ((if sgn then ['-'] else []) ++
        (natToDec (rndHalfEven (num * 10000) (2 ^ 149) / 10000)).data ++
        '.' :: (pad4 (rndHalfEven (num * 10000) (2 ^ 149) % 10000)).data) := by
  apply String.ext
  rw [fmt4_finite_eq]
  cases sgn <;> simp [String.data_append]

/-- Splitting a digits-dot-digits character list on the dot recovers the two runs. -/
lemma splitOn_dot (ip fp : List Char) (hip : ∀ c ∈ ip, c ≠ '.') (hfp : ∀ c ∈ fp, c ≠ '.') :
    (ip ++ '.' :: fp).splitOn '.' = [ip, fp] := by
  have h1 : ∀ x ∈ ip, ¬((x == '.') = true) := by
    intro x hx
    simp only [beq_iff_eq]
    exact hip x hx
  have h2 : ∀ x ∈ fp, ¬((x == '.') = true) := by
    intro x hx
    simp only [beq_iff_eq]
    exact hfp x hx
  show (ip ++ '.' :: fp).splitOnP (· == '.') = [ip, fp]
  rw [List.splitOnP_first (· == '.') ip h1 '.' (by simp) fp,
    List.splitOnP_eq_single (· == '.') fp h2]

/-- A sign-digits-dot-four-digits character list passes the fixed-point check. -/
lemma isFixed4_build (sgn : Bool) (ip fp : List Char) (hipne : ip ≠ [])
    (hipdig : ∀ c ∈ ip, c.isDigit = true) (hfplen : fp.length = 4)
    (hfpdig : ∀ c ∈ fp, c.isDigit = true) :
    isFixed4 (String.mk ((if sgn then ['-'] else []) ++ ip ++ '.' :: fp)) = true := by
  have hipdot : ∀ c ∈ ip, c ≠ '.' := fun c hc => (digit_ne_of_isDigit c (hipdig c hc)).2.2.1
  have hfpdot : ∀ c ∈ fp, c ≠ '.' := fun c hc => (digit_ne_of_isDigit c (hfpdig c hc)).2.2.1
  have hstrip : stripSign ((if sgn then ['-'] else []) ++ ip ++ '.' :: fp) = ip ++ '.' :: fp := by
    cases sgn with
    | true => simp [stripSign]
    | false =>
      simp only [Bool.false_eq_true, if_false, List.nil_append]
      obtain ⟨c, t, hct⟩ : ∃ c t, ip = c :: t := by
        cases hd : ip with
        | nil => exact absurd hd hipne
        | cons c t => exact ⟨c, t, rfl⟩
      have hcdig : c.isDigit = true := hipdig c (by rw [hct]; exact List.mem_cons_self c t)
      rw [hct, List.cons_append, stripSign_of_ne c _ (digit_ne_of_isDigit c hcdig).2.2.2]
  unfold isFixed4
  rw [show (String.mk ((if sgn then ['-'] else []) ++ ip ++ '.' :: fp)).data =
      (if sgn then ['-'] else []) ++ ip ++ '.' :: fp from rfl,
    hstrip, splitOn_dot ip fp hipdot hfpdot]
  simp only [Bool.and_eq_true, Bool.not_eq_true', List.isEmpty_eq_false, List.all_eq_true,
    beq_iff_eq]
  exact ⟨⟨⟨hipne, hfplen⟩, fun c hc => hipdig c hc⟩, fun c hc => hfpdig c hc⟩

/-- The %.4f rendering of every finite binary32 value has the fixed-point shape
with exactly four fractional digits. -/
lemma fmt4_finite_isFixed4 (sgn : Bool) (num : Nat) :
    isFixed4 (fmt4 (.finite sgn num)) = true := by
  obtain ⟨hipne, hipdig⟩ := natToDec_spec (rndHalfEven (num * 10000) (2 ^ 149) / 10000)
  obtain ⟨hfplen, hfpdig⟩ := pad4_spec (rndHalfEven (num * 10000) (2 ^ 149) % 10000)
  rw [fmt4_finite_mk]
  exact isFixed4_build sgn _ _ hipne hipdig hfplen hfpdig

/-- The %.4f rendering of any binary32 value is nonempty and contains neither a
comma nor a newline. -/
lemma fmt4_chars (x : CFloat) :
    (fmt4 x).data ≠ [] ∧ ∀ c ∈ (fmt4 x).data, c ≠ ',' ∧ c ≠ '\n' := by
  cases x with
  | nan sgn => cases sgn <;> exact ⟨by decide, by decide⟩
  | inf sgn => cases sgn <;> exact ⟨by decide, by decide⟩
  | finite sgn num =>
    obtain ⟨hipne, hipdig⟩ := natToDec_spec (rndHalfEven (num * 10000) (2 ^ 149) / 10000)
    obtain ⟨hfplen, hfpdig⟩ := pad4_spec (rndHalfEven (num * 10000) (2 ^ 149) % 10000)
    rw [fmt4_finite_mk]
    constructor
    · cases sgn <;> simp
    · intro c hc
      rcases List.mem_append.1 hc with h12 | h3
      · rcases List.mem_append.1 h12 with h1 | h2
        · cases sgn
          · simp at h1
          · simp at h1; subst h1; exact ⟨by decide, by decide⟩
        · have := digit_ne_of_isDigit c (hipdig c h2)
          exact ⟨this.1, this.2.1⟩
      · rcases List.mem_cons.1 h3 with h4 | h5
        · subst h4; exact ⟨by decide, by decide⟩
        · have := digit_ne_of_isDigit c (hfpdig c h5)
          exact ⟨this.1, this.2.1⟩

/-- Every state label is nonempty and contains neither a comma nor a newline. -/
lemma state_name_chars (s : Nat) :
    (state_name s).data ≠ [] ∧ ∀ c ∈ (state_name s).data, c ≠ ',' ∧ c ≠ '\n' := by
  unfold state_name
  split_ifs <;> exact ⟨by decide, by decide⟩

/-- The %d rendering of any signed integer is nonempty and contains neither a
comma nor a newline. -/
lemma intToDec_chars (i : Int) :
    (intToDec i).data ≠ [] ∧ ∀ c ∈ (intToDec i).data, c ≠ ',' ∧ c ≠ '\n' := by
  by_cases hi : i < 0
  · have hdata : (intToDec i).data = '-' :: (natToDec (-i).toNat).data := by
      simp [intToDec, hi, String.data_append]
    obtain ⟨hne, hdig⟩ := natToDec_spec (-i).toNat
    rw [hdata]
    refine ⟨by simp, ?_⟩
    intro c hc
    rcases List.mem_cons.1 hc with hc | hc
    · subst hc; exact ⟨by decide, by decide⟩
    · have := digit_ne_of_isDigit c (hdig c hc)
      exact ⟨this.1, this.2.1⟩
  · have hdata : (intToDec i).data = (natToDec i.toNat).data := by simp [intToDec, hi]
    obtain ⟨hne, hdig⟩ := natToDec_spec i.toNat
    rw [hdata]
    refine ⟨hne, ?_⟩
    intro c hc
    have := digit_ne_of_isDigit c (hdig c hc)
    exact ⟨this.1, this.2.1⟩

/-- Every one of the twenty-one formatted fields is nonempty and free of commas
and newlines. -/
lemma fields_ok (r : MainStateVector) :
    ∀ f ∈ formatFields r, f.data ≠ [] ∧ ∀ c ∈ f.data, c ≠ ',' ∧ c ≠ '\n' := by
  intro f hf
  fin_cases hf
  case _ => exact fmt4_chars _
  case _ => exact state_name_chars _
  all_goals first
    | exact fmt4_chars _
    | exact intToDec_chars _

/-- Intercalating commas through a one-element list is that element. -/
lemma intercalate_comma_singleton (a : List Char) : List.intercalate [','] [a] = a := by
  simp [List.intercalate]

/-- Unfolding of comma intercalation over a list of two or more groups. -/
lemma intercalate_comma_cons_cons (a b : List Char) (ls : List (List Char)) :
    List.intercalate [','] (a :: b :: ls) = a ++ ',' :: List.intercalate [','] (b :: ls) := by
  simp [List.intercalate, List.intersperse_cons_cons]

/-- A character of a comma intercalation is a comma or a character of a group. -/
lemma mem_intercalate_comma :
    ∀ (ls : List (List Char)) (c : Char), c ∈ List.intercalate [','] ls →
      c = ',' ∨ ∃ l ∈ ls, c ∈ l := by
  intro ls
  induction ls with
  | nil => intro c hc; simp [List.intercalate] at hc
  | cons a tl ih =>
    cases tl with
    | nil =>
      intro c hc
      rw [intercalate_comma_singleton] at hc
      exact Or.inr ⟨a, by simp, hc⟩
    | cons b tl2 =>
      intro c hc
      rw [intercalate_comma_cons_cons] at hc
      rcases List.mem_append.1 hc with h | h
      · exact Or.inr ⟨a, by simp, h⟩
      · rcases List.mem_cons.1 h with h | h
        · exact Or.inl h
        · rcases ih c h with h1 | ⟨l, hl, hcl⟩
          · exact Or.inl h1
          · exact Or.inr ⟨l, List.mem_cons_of_mem a hl, hcl⟩

/-- The comma count of a comma intercalation of comma-free groups is the number
of groups minus one. -/
lemma count_comma_intercalate :
    ∀ ls : List (List Char), (∀ l ∈ ls, ',' ∉ l) →
      (List.intercalate [','] ls).count ',' = ls.length - 1 := by
  intro ls
  induction ls with
  | nil => intro _; simp [List.intercalate]
  | cons a tl ih =>
    cases tl with
    | nil =>
      intro h
      rw [intercalate_comma_singleton]
      simp [List.count_eq_zero.2 (h a (by simp))]
    | cons b tl2 =>
      intro h
      rw [intercalate_comma_cons_cons, List.count_append, List.count_cons_self,
        List.count_eq_zero.2 (h a (by simp)),
        ih (fun l hl => h l (List.mem_cons_of_mem a hl))]
      simp

/-- Character-list forms of the formatted fields: nonempty, comma-free,
newline-free. -/
lemma fieldsData_facts (r : MainStateVector) :
    ∀ l ∈ (formatFields r).map String.data, l ≠ [] ∧ ',' ∉ l ∧ '\n' ∉ l := by
  intro l hl
  rcases List.mem_map.1 hl with ⟨f, hf, rfl⟩
  obtain ⟨hne, hchars⟩ := fields_ok r f hf
  exact ⟨hne, fun hmem => (hchars _ hmem).1 rfl, fun hmem => (hchars _ hmem).2 rfl⟩

/-- The row has twenty-one fields. -/
lemma formatFields_length (r : MainStateVector) : (formatFields r).length = 21 := rfl

/-- Splitting the row body on commas recovers exactly the twenty-one fields. -/
lemma rowChars_body_splitOn (r : MainStateVector) :
    (List.intercalate [','] ((formatFields r).map String.data)).splitOn ',' =
      (formatFields r).map String.data := by
  apply List.splitOn_intercalate
  · intro l hl
    exact (fieldsData_facts r l hl).2.1
  · simp [formatFields]

/-- The row body contains no newline. -/
lemma newline_notin_body (r : MainStateVector) :
    '\n' ∉ List.intercalate [','] ((formatFields r).map String.data) := by
  intro hmem
  rcases mem_intercalate_comma _ _ hmem with h | ⟨l, hl, hcl⟩
  · exact absurd h (by decide)
  · exact (fieldsData_facts r l hl).2.2 hcl

/-- Every row contains exactly twenty commas (twenty-one comma-separated
fields). -/
lemma rowChars_count_comma (r : MainStateVector) : (rowChars r).count ',' = 20 := by
  unfold rowChars
  rw [List.count_append,
    count_comma_intercalate ((formatFields r).map String.data)
      (fun l hl => (fieldsData_facts r l hl).2.1),
    List.length_map, formatFields_length]
  decide

/-- Every row contains exactly one newline. -/
lemma rowChars_count_newline (r : MainStateVector) : (rowChars r).count '\n' = 1 := by
  unfold rowChars
  rw [List.count_append, List.count_eq_zero.2 (newline_notin_body r)]
  decide

/-- Every row ends with the newline. -/
lemma rowChars_getLast (r : MainStateVector) : (rowChars r).getLast? = some '\n' :=
  List.getLast?_concat _

/-- No row is empty. -/
lemma rowChars_ne_nil (r : MainStateVector) : rowChars r ≠ [] := by
  simp [rowChars]

/-- The record list read from a stream does not depend on the fuel, once the
fuel covers the stream length. -/
lemma decodeStreamFuel_congr :
    ∀ f1 f2 bs, bs.length ≤ f1 → bs.length ≤ f2 →
      decodeStreamFuel f1 bs = decodeStreamFuel f2 bs := by
  intro f1
  induction f1 with
  | zero =>
    intro f2 bs h1 _
    have hbs : bs = [] := List.eq_nil_of_length_eq_zero (Nat.le_zero.1 h1)
    subst hbs
    cases f2 <;> simp [decodeStreamFuel, recordSize]
  | succ f ih =>
    intro f2 bs h1 h2
    cases f2 with
    | zero =>
      have hbs : bs = [] := List.eq_nil_of_length_eq_zero (Nat.le_zero.1 h2)
      subst hbs
      simp [decodeStreamFuel, recordSize]
    | succ g =>
      by_cases hlen : recordSize ≤ bs.length
      · simp only [decodeStreamFuel, if_pos hlen]
        congr 1
        apply ih
        · rw [List.length_drop]
          simp only [recordSize] at hlen ⊢
          omega
        · rw [List.length_drop]
          simp only [recordSize] at hlen ⊢
          omega
      · simp only [decodeStreamFuel, if_neg hlen]

/-- One-step unfolding of the record stream. -/
lemma decodeStream_eq (bs : List Nat) :
    decodeStream bs =
      if recordSize ≤ bs.length then
        parseRecord (bs.take recordSize) :: decodeStream (bs.drop recordSize)
      else [] := by
  unfold decodeStream
  by_cases hlen : recordSize ≤ bs.length
  · rw [if_pos hlen]
    cases hbs : bs.length with
    | zero =>
      rw [hbs] at hlen
      simp [recordSize] at hlen
    | succ n =>
      simp only [decodeStreamFuel, if_pos hlen]
      congr 1
      apply decodeStreamFuel_congr
      · rw [List.length_drop]
        simp only [recordSize] at hlen ⊢
        omega
      · exact Nat.le_refl _
  · rw [if_neg hlen]
    cases hbs : bs.length with
    | zero => simp [decodeStreamFuel]
    | succ n => simp only [decodeStreamFuel, if_neg hlen]

/-- The number of records in a stream is the stream length divided by the
record size. -/
lemma decodeStreamFuel_length :
    ∀ fuel bs, bs.length ≤ fuel →
      (decodeStreamFuel fuel bs).length = bs.length / recordSize := by
  intro fuel
  induction fuel with
  | zero =>
    intro bs h
    have hbs : bs = [] := List.eq_nil_of_length_eq_zero (Nat.le_zero.1 h)
    subst hbs
    simp [decodeStreamFuel]
  | succ f ih =>
    intro bs h
    by_cases hlen : recordSize ≤ bs.length
    · simp only [decodeStreamFuel, if_pos hlen, List.length_cons]
      rw [ih _ (by rw [List.length_drop]; simp only [recordSize]; omega), List.length_drop]
      simp only [recordSize] at hlen ⊢
      omega
    · simp only [decodeStreamFuel, if_neg hlen, List.length_nil]
      simp only [recordSize] at hlen ⊢
      omega

/-- Record count of a full stream. -/
lemma decodeStream_length (bs : List Nat) :
    (decodeStream bs).length = bs.length / recordSize :=
  decodeStreamFuel_length bs.length bs (Nat.le_refl _)

/-- Closed form of the decode loop: starting from any counter value below 2^32
and any already-written output, the loop adds one row per complete record in
stream order and counts the records modulo 2^32. -/
lemma mainLoop_spec :
    ∀ fuel bs count out, bs.length ≤ fuel → count < 2 ^ 32 →
      mainLoop fuel bs count out =
        ((count + (decodeStream bs).length) % 2 ^ 32,
          out ++ ((decodeStream bs).map rowChars).flatten) := by
  intro fuel
  induction fuel with
  | zero =>
    intro bs count out h hc
    have hbs : bs = [] := List.eq_nil_of_length_eq_zero (Nat.le_zero.1 h)
    subst hbs
    simp [mainLoop, decodeStream, decodeStreamFuel]
    omega
  | succ f ih =>
    intro bs count out h hc
    rw [decodeStream_eq bs]
    by_cases hlen : recordSize ≤ bs.length
    · rw [if_pos hlen]
      simp only [mainLoop, if_pos hlen]
      rw [ih _ _ _ (by rw [List.length_drop]; simp only [recordSize]; omega)
        (Nat.mod_lt _ (by norm_num))]
      simp only [Prod.mk.injEq]
      constructor
      · rw [Nat.mod_add_mod, List.length_cons]
        omega
      · simp [List.append_assoc]
    · rw [if_neg hlen]
      simp only [mainLoop, if_neg hlen]
      simp only [Prod.mk.injEq]
      constructor
      · simp
        omega
      · simp

/-- Dropping the truncated trailing fragment of a stream leaves the decoded
record sequence unchanged. -/
lemma decodeStream_take :
    ∀ fuel bs, bs.length ≤ fuel →
      decodeStream (bs.take (recordSize * (bs.length / recordSize))) = decodeStream bs := by
  intro fuel
  induction fuel with
  | zero =>
    intro bs h
    have hbs : bs = [] := List.eq_nil_of_length_eq_zero (Nat.le_zero.1 h)
    subst hbs
    simp
  | succ f ih =>
    intro bs h
    by_cases hlen : recordSize ≤ bs.length
    · have htlen : (bs.take (recordSize * (bs.length / recordSize))).length
          = recordSize * (bs.length / recordSize) := by
        rw [List.length_take]
        simp only [recordSize] at hlen ⊢
        omega
      rw [decodeStream_eq bs, if_pos hlen]
      rw [decodeStream_eq (bs.take (recordSize * (bs.length / recordSize))),
        if_pos (by rw [htlen]; simp only [recordSize] at hlen ⊢; omega)]
      congr 1
      · have hmin : min recordSize (recordSize * (bs.length / recordSize)) = recordSize := by
          simp only [recordSize] at hlen ⊢
          omega
        rw [List.take_take, hmin]
      · rw [List.drop_take]
        have harith : recordSize * (bs.length / recordSize) - recordSize
            = recordSize * ((bs.drop recordSize).length / recordSize) := by
          rw [List.length_drop]
          simp only [recordSize] at hlen ⊢
          omega
        rw [harith]
        exact ih _ (by rw [List.length_drop]; simp only [recordSize]; omega)
    · have hk : bs.length / recordSize = 0 := by
        simp only [recordSize] at hlen ⊢
        omega
      rw [hk, Nat.mul_zero, List.take_zero]
      rw [decodeStream_eq bs, if_neg hlen]
      rfl

/-- Appending rows that each end with a newline preserves ending in a newline. -/
lemma getLast_append_rows :
    ∀ (rows : List (List Char)) (pre : List Char), pre.getLast? = some '\n' →
      (∀ x ∈ rows, x.getLast? = some '\n') → (pre ++ rows.flatten).getLast? = some '\n' := by
  intro rows
  induction rows with
  | nil =>
    intro pre h _
    simpa using h
  | cons a tl ih =>
    intro pre h hall
    rw [List.flatten_cons, ← List.append_assoc]
    apply ih
    · have ha : a.getLast? = some '\n' := hall a (by simp)
      have hane : a ≠ [] := by
        intro he
        rw [he] at ha
        simp at ha
      rw [List.getLast?_append_of_ne_nil _ hane]
      exact ha
    · intro x hx
      exact hall x (List.mem_cons_of_mem a hx)

/-- A finite bit pattern decodes to a finite value. -/
lemma finiteBits_decode (bits : Nat) (h : finiteBits bits = true) :
    ∃ sgn num, decodeF32 bits = .finite sgn num := by
  simp only [finiteBits, bne_iff_ne, ne_eq] at h
  simp only [decodeF32]
  rw [if_neg h]
  by_cases he : bits / 2 ^ 23 % 2 ^ 8 = 0
  · rw [if_pos he]
    exact ⟨_, _, rfl⟩
  · rw [if_neg he]
    exact ⟨_, _, rfl⟩

/-- The %.4f rendering of a finite bit pattern passes the fixed-point check. -/
lemma fixed4_of_finiteBits (bits : Nat) (h : finiteBits bits = true) :
    isFixed4 (fmt4 (decodeF32 bits)) = true := by
  obtain ⟨sgn, num, hd⟩ := finiteBits_decode bits h
  rw [hd]
  exact fmt4_finite_isFixed4 sgn num

/-- Every NaN bit pattern renders as the nan token, possibly sign-prefixed. -/
lemma nanBits_render (b : Nat) (h : nanBits b = true) :
    fmt4 (decodeF32 b) = "nan" ∨ fmt4 (decodeF32 b) = "-nan" := by
  simp only [nanBits, Bool.and_eq_true, decide_eq_true_eq] at h
  have hd : decodeF32 b = .nan (decide (b / 2 ^ 31 % 2 = 1)) := by
    simp only [decodeF32]
    rw [if_pos h.1, if_neg h.2]
  rw [hd]
  cases hs : decide (b / 2 ^ 31 % 2 = 1)
  · exact Or.inl (by decide)
  · exact Or.inr (by decide)

/-- Every infinity bit pattern renders as the inf token, possibly
sign-prefixed. -/
lemma infBits_render (b : Nat) (h : infBits b = true) :
    fmt4 (decodeF32 b) = "inf" ∨ fmt4 (decodeF32 b) = "-inf" := by
  simp only [infBits, Bool.and_eq_true, decide_eq_true_eq] at h
  have hd : decodeF32 b = .inf (decide (b / 2 ^ 31 % 2 = 1)) := by
    simp only [decodeF32]
    rw [if_pos h.1, if_pos h.2]
  rw [hd]
  cases hs : decide (b / 2 ^ 31 % 2 = 1)
  · exact Or.inl (by decide)
  · exact Or.inr (by decide)

/-- Summing a constant one over a list gives its length. -/
lemma sum_map_ones {α : Type} (l : List α) : (l.map fun _ => (1 : Nat)).sum = l.length := by
  induction l with
  | nil => simp
  | cons a tl ih => simp [ih, Nat.add_comm]

set_option maxRecDepth 10000

/-- Claim C2: `state_name` is a total pure function over all `uint8_t` state
codes: the seven defined codes map to their own distinct canonical uppercase
labels and every other code maps to the "UNKNOWN" sentinel; no code fails. -/
theorem C2_state_name_total :
    definedCodes.map state_name =
      ["PRELTOFF", "PWFLIGHT", "CRUISING", "CRSCANRD", "FALLDROG", "FALLMAIN", "CONCLUDE"] ∧
    (definedCodes.map state_name).Nodup ∧
    (∀ c : Fin 256, c.val ∈ definedCodes → state_name c.val ≠ "UNKNOWN") ∧
    (∀ c : Fin 256, c.val ∉ definedCodes → state_name c.val = "UNKNOWN") := by
  refine ⟨by decide, by decide, by decide, by decide⟩

/-- Witness for C2 at the defined code 3 and the undefined code 200. -/
theorem C2_state_name_total_witness :
    (3 : Nat) ∈ definedCodes ∧ state_name 3 ≠ "UNKNOWN" ∧
    (200 : Nat) ∉ definedCodes ∧ state_name 200 = "UNKNOWN" := by
  refine ⟨by decide, ?_, by decide, ?_⟩
  · exact C2_state_name_total.2.2.1 ⟨3, by omega⟩ (by decide)
  · exact C2_state_name_total.2.2.2 ⟨200, by omega⟩ (by decide)

/-- Claim C3 (the code contradicts it): when the input `fopen` fails, `main`
still opens and truncates the output file and writes the header row into it,
produces no failure indication on any stream, and then reaches undefined
behavior by passing the NULL stream to `fread`; the run does not fail before
output is produced. -/
theorem C3_open_failure_behavior :
    main_run none [] = RunResult.ub header.data ∧
    runOutFile (main_run none []) = header.data ∧
    runConsole (main_run none []) = none ∧
    header.data ≠ [] := by
  exact ⟨rfl, rfl, rfl, by decide⟩

/-- Claim C6: an empty input stream produces an output containing only the
header row and a reported count of zero, as a normal completion of the run. -/
theorem C6_empty_input :
    main_run (some []) [] =
      RunResult.ok header.data ("Decoded 0 telemetry packets\n").data := by
  decide

/-- Claim C7: decoding is deterministic — the outcome of a run depends only on
the input bytes, never on the prior content of the output file (mode "w"
truncates it) or on run history, so two runs on the same input agree. -/
theorem C7_deterministic (input : Option (List Nat)) (p1 p2 : List Char) :
    main_run input p1 = main_run input p2 := by
  cases input <;> rfl

/-- Closed form of the console line of a successful run. -/
lemma runConsole_closed (bs : List Nat) :
    runConsole (main_run (some bs) []) =
      some (("Decoded " ++ intToDec (toSigned32 (bs.length / recordSize % 2 ^ 32)) ++
        " telemetry packets\n").data) := by
  simp only [main_run, openOutputW, List.nil_append]
  rw [mainLoop_spec bs.length bs 0 header.data (Nat.le_refl _) (by norm_num)]
  simp only [runConsole, decodeStream_length, Nat.zero_add]

/-- Claim C10: the packet counter is a `uint32_t` — for every input stream the
reported count is the number of complete records modulo 2^32, printed through
the signed %d decimal conversion. -/
theorem C10_count_mod32 (bs : List Nat) :
    runConsole (main_run (some bs) []) =
      some (("Decoded " ++ intToDec (toSigned32 (bs.length / recordSize % 2 ^ 32)) ++
        " telemetry packets\n").data) :=
  runConsole_closed bs

/-- Claim C8: the decode loop is a two-state machine: from `Reading` the
machine moves to `Done` exactly when fewer than a full record of bytes remain
(end-of-stream or short read), `Done` is terminal, a full record is always
consumed and emitted otherwise, and every record byte pattern formats into a
well-formed row (twenty-one comma-separated fields, single terminating
newline) — there is no error state. -/
theorem C8_two_state_machine :
    (∀ rest : List Nat, (step (.Reading rest)).1 = .Done ↔ rest.length < recordSize) ∧
    step .Done = (.Done, none) ∧
    (∀ rest : List Nat, recordSize ≤ rest.length →
      step (.Reading rest) =
        (.Reading (rest.drop recordSize), some (parseRecord (rest.take recordSize)))) ∧
    (∀ bytes : List Nat,
      (rowChars (parseRecord bytes)).count ',' = 20 ∧
      (rowChars (parseRecord bytes)).count '\n' = 1 ∧
      (rowChars (parseRecord bytes)).getLast? = some '\n') := by
  refine ⟨?_, rfl, ?_, ?_⟩
  · intro rest
    by_cases h : recordSize ≤ rest.length
    · simp only [step, if_pos h]
      constructor
      · intro hcon
        exact absurd hcon (by simp)
      · intro hlt
        omega
    · simp only [step, if_neg h]
      constructor
      · intro _
        omega
      · intro _
        trivial
  · intro rest h
    simp only [step, if_pos h]
  · intro bytes
    exact ⟨rowChars_count_comma _, rowChars_count_newline _, rowChars_getLast _⟩

/-- Witness for C8 at the empty stream and at one all-zero record. -/
theorem C8_two_state_machine_witness :
    (step (.Reading ([] : List Nat))).1 = .Done ∧
    step (.Reading (List.replicate 81 (0 : Nat))) = (.Reading [], some zeroRecord) ∧
    (rowChars zeroRecord).count ',' = 20 := by
  refine ⟨?_, ?_, ?_⟩
  · exact (C8_two_state_machine.1 []).2 (by decide)
  · exact (C8_two_state_machine.2.2.1 (List.replicate 81 0) (by decide)).trans (by decide)
  · exact (C8_two_state_machine.2.2.2 (List.replicate 81 0)).1

/-- Counterexample to C1 as stated: a record whose time field holds a NaN bit
pattern renders its first floating-point field as "nan", which is not
fixed-point notation with four fractional digits. -/
theorem C1_counterexample :
    fieldAt nanTimeRecord 0 = "nan" ∧
    isFixed4 (fieldAt nanTimeRecord 0) = false := by
  exact ⟨by decide, by decide⟩

/-- Claim C1 (amended): for every record — with no restriction on its bytes —
the row is the twenty-one fields in the sprintf argument order joined by single
commas with no trailing separator and a single terminating newline; the state
field is the resolved label, the imu_temp field is a plain decimal integer, and
each of the nineteen floating-point fields is the %.4f rendering of its bit
pattern: fixed-point with exactly four fractional digits whenever the pattern
is finite, the (possibly sign-prefixed) nan token for every NaN pattern, and
the (possibly sign-prefixed) inf token for every infinity pattern. -/
theorem C1_row_format (r : MainStateVector) :
    rowChars r = List.intercalate [','] ((formatFields r).map String.data) ++ ['\n'] ∧
    '\n' ∉ List.intercalate [','] ((formatFields r).map String.data) ∧
    (List.intercalate [','] ((formatFields r).map String.data)).splitOn ',' =
      (formatFields r).map String.data ∧
    (formatFields r).length = 21 ∧
    (rowChars r).count ',' = 20 ∧
    (rowChars r).count '\n' = 1 ∧
    (rowChars r).getLast? = some '\n' ∧
    fieldAt r 1 = state_name r.state ∧
    isPlainInt (fieldAt r 8) = true ∧
    ∀ p ∈ floatFieldIndexes.zip (floatFields r),
      fieldAt r p.1 = fmt4 (decodeF32 p.2) ∧
      (finiteBits p.2 = true → isFixed4 (fieldAt r p.1) = true) ∧
      (nanBits p.2 = true → fieldAt r p.1 = "nan" ∨ fieldAt r p.1 = "-nan") ∧
      (infBits p.2 = true → fieldAt r p.1 = "inf" ∨ fieldAt r p.1 = "-inf") := by
  refine ⟨rfl, newline_notin_body r, rowChars_body_splitOn r, rfl,
    rowChars_count_comma r, rowChars_count_newline r, rowChars_getLast r, rfl,
    intToDec_plain _, ?_⟩
  intro p hp
  simp only [floatFieldIndexes, floatFields, List.zip_cons_cons, List.zip_nil_right,
    List.mem_cons, List.not_mem_nil, or_false] at hp
  rcases hp with rfl | rfl | rfl | rfl | rfl | rfl | rfl | rfl | rfl | rfl | rfl | rfl | rfl |
    rfl | rfl | rfl | rfl | rfl | rfl <;>
    exact ⟨rfl, fun h => fixed4_of_finiteBits _ h, fun h => nanBits_render _ h,
      fun h => infBits_render _ h⟩

/-- Witness for C1 at the all-zero record and at records carrying a NaN and an
infinity time pattern, exercising all three rendering branches. -/
theorem C1_row_format_witness :
    ((0, 0) : Nat × Nat) ∈ floatFieldIndexes.zip (floatFields zeroRecord) ∧
    finiteBits 0 = true ∧
    isFixed4 (fieldAt zeroRecord 0) = true ∧
    ((0, 2143289344) : Nat × Nat) ∈ floatFieldIndexes.zip (floatFields nanTimeRecord) ∧
    nanBits 2143289344 = true ∧
    (fieldAt nanTimeRecord 0 = "nan" ∨ fieldAt nanTimeRecord 0 = "-nan") ∧
    ((0, 4286578688) : Nat × Nat) ∈ floatFieldIndexes.zip (floatFields infTimeRecord) ∧
    infBits 4286578688 = true ∧
    (fieldAt infTimeRecord 0 = "inf" ∨ fieldAt infTimeRecord 0 = "-inf") := by
  refine ⟨by decide, by decide, ?_, by decide, by decide, ?_, by decide, by decide, ?_⟩
  · exact ((C1_row_format zeroRecord).2.2.2.2.2.2.2.2.2 (0, 0) (by decide)).2.1 (by decide)
  · exact ((C1_row_format nanTimeRecord).2.2.2.2.2.2.2.2.2 (0, 2143289344)
      (by decide)).2.2.1 (by decide)
  · exact ((C1_row_format infTimeRecord).2.2.2.2.2.2.2.2.2 (0, 4286578688)
      (by decide)).2.2.2 (by decide)

/-- Counterexample to C4 as stated: an input of exactly 2^32 complete records
reports a count of 0, not 2^32 — the `uint32_t` packet counter wraps. -/
theorem C4_counterexample :
    (List.replicate (recordSize * 2 ^ 32) (0 : Nat)).length / recordSize = 2 ^ 32 ∧
    runConsole (main_run (some (List.replicate (recordSize * 2 ^ 32) 0)) []) =
      some ("Decoded 0 telemetry packets\n").data ∧
    (2 ^ 32 : Nat) ≠ 0 := by
  refine ⟨?_, ?_, by norm_num⟩
  · rw [List.length_replicate]
    simp only [recordSize]
    omega
  · simp only [main_run, openOutputW, List.nil_append]
    rw [mainLoop_spec _ _ 0 header.data (Nat.le_refl _) (by norm_num)]
    have hcount : (0 + (decodeStream (List.replicate (recordSize * 2 ^ 32) 0)).length) % 2 ^ 32
        = 0 := by
      rw [decodeStream_length, List.length_replicate]
      simp only [recordSize]
      omega
    rw [hcount]
    simp only [runConsole]
    decide

/-- Claim C4 (amended): for every input stream the run succeeds with output
starting with exactly the fixed header line, followed by one row per complete
record in input order; the output has (number of records) + 1 newline-terminated
lines and the reported count is the number of complete records modulo 2^32
(equal to it whenever it is below 2^32). -/
theorem C4_run_output (bs : List Nat) :
    main_run (some bs) [] =
      RunResult.ok (header.data ++ ((decodeStream bs).map rowChars).flatten)
        (("Decoded " ++ intToDec (toSigned32 (bs.length / recordSize % 2 ^ 32)) ++
          " telemetry packets\n").data) ∧
    (decodeStream bs).length = bs.length / recordSize ∧
    (∃ rest, runOutFile (main_run (some bs) []) =
      ("Time,State,Filtered Altitude,Filtered Velocity,Filtered Acceleration,Pressure,Temperature,Barometer Altitude,IMU Temperature,Accel X,Accel Y,Accel Z,Accel Vertical,Gyro X,Gyro Y,Gyro Z,Quat W,Quat X,Quat Y,Quat Z,LP Altitude").data
        ++ '\n' :: rest) ∧
    (runOutFile (main_run (some bs) [])).count '\n' = bs.length / recordSize + 1 ∧
    (runOutFile (main_run (some bs) [])).getLast? = some '\n' := by
  have hrun : main_run (some bs) [] =
      RunResult.ok (header.data ++ ((decodeStream bs).map rowChars).flatten)
        (("Decoded " ++ intToDec (toSigned32 (bs.length / recordSize % 2 ^ 32)) ++
          " telemetry packets\n").data) := by
    simp only [main_run, openOutputW, List.nil_append]
    rw [mainLoop_spec bs.length bs 0 header.data (Nat.le_refl _) (by norm_num)]
    simp only [decodeStream_length, Nat.zero_add]
  refine ⟨hrun, decodeStream_length bs, ?_, ?_, ?_⟩
  · refine ⟨((decodeStream bs).map rowChars).flatten, ?_⟩
    rw [hrun]
    show header.data ++ _ = _
    rw [show header.data =
      ("Time,State,Filtered Altitude,Filtered Velocity,Filtered Acceleration,Pressure,Temperature,Barometer Altitude,IMU Temperature,Accel X,Accel Y,Accel Z,Accel Vertical,Gyro X,Gyro Y,Gyro Z,Quat W,Quat X,Quat Y,Quat Z,LP Altitude").data
        ++ ['\n'] from by decide, List.append_assoc]
    rfl
  · rw [hrun]
    show (header.data ++ ((decodeStream bs).map rowChars).flatten).count '\n' = _
    rw [List.count_append, List.count_flatten, List.map_map]
    have hones : (List.count '\n' ∘ rowChars) = fun _ : MainStateVector => (1 : Nat) :=
      funext fun r => rowChars_count_newline r
    rw [hones, sum_map_ones, decodeStream_length]
    have hh : header.data.count '\n' = 1 := by decide
    rw [hh]
    omega
  · rw [hrun]
    show (header.data ++ ((decodeStream bs).map rowChars).flatten).getLast? = some '\n'
    apply getLast_append_rows
    · decide
    · intro x hx
      rcases List.mem_map.1 hx with ⟨r, _, rfl⟩
      exact rowChars_getLast r

/-- Counterexample to C5 as stated: an input of 2^32 complete records plus a
one-byte trailing fragment reports a count of 0, not the number of complete
records 2^32 — the `uint32_t` counter wraps. -/
theorem C5_counterexample :
    (List.replicate (recordSize * 2 ^ 32 + 1) (0 : Nat)).length % recordSize ≠ 0 ∧
    (List.replicate (recordSize * 2 ^ 32 + 1) (0 : Nat)).length / recordSize = 2 ^ 32 ∧
    runConsole (main_run (some (List.replicate (recordSize * 2 ^ 32 + 1) 0)) []) =
      some ("Decoded 0 telemetry packets\n").data := by
  refine ⟨?_, ?_, ?_⟩
  · rw [List.length_replicate]
    simp only [recordSize]
    omega
  · rw [List.length_replicate]
    simp only [recordSize]
    omega
  · simp only [main_run, openOutputW, List.nil_append]
    rw [mainLoop_spec _ _ 0 header.data (Nat.le_refl _) (by norm_num)]
    have hcount :
        (0 + (decodeStream (List.replicate (recordSize * 2 ^ 32 + 1) 0)).length) % 2 ^ 32
          = 0 := by
      rw [decodeStream_length, List.length_replicate]
      simp only [recordSize]
      omega
    rw [hcount]
    simp only [runConsole]
    decide

/-- Claim C5 (amended): a truncated trailing fragment is treated exactly like
end-of-stream — the whole run on a stream equals the run on the stream cut to
its complete records, the fragment contributes nothing to the output, and the
reported count is the number of complete records modulo 2^32 (the number of
complete records itself whenever below 2^32), with no distinct signal. -/
theorem C5_fragment_dropped (bs : List Nat) :
    main_run (some bs) [] =
      main_run (some (bs.take (recordSize * (bs.length / recordSize)))) [] ∧
    (decodeStream bs).length = bs.length / recordSize ∧
    runConsole (main_run (some bs) []) =
      some (("Decoded " ++ intToDec (toSigned32 (bs.length / recordSize % 2 ^ 32)) ++
        " telemetry packets\n").data) := by
  refine ⟨?_, decodeStream_length bs, runConsole_closed bs⟩
  have htake := decodeStream_take bs.length bs (Nat.le_refl _)
  simp only [main_run, openOutputW, List.nil_append]
  rw [mainLoop_spec bs.length bs 0 header.data (Nat.le_refl _) (by norm_num),
    mainLoop_spec (bs.take (recordSize * (bs.length / recordSize))).length
      (bs.take (recordSize * (bs.length / recordSize))) 0 header.data (Nat.le_refl _)
      (by norm_num),
    htake]

/-- Claim C9: encoding a record to bytes per the Record Schema and decoding the
bytes back yields exactly the original field values (the stored bit patterns
round-trip without loss, so equality is exact, not merely within tolerance). -/
theorem C9_roundtrip (r : MainStateVector) (hv : validRecord r = true) :
    parseRecord (encodeRecord r) = r := by
  cases r with
  | mk t st al ve ac pr te ba im ax ay az av gx gy gz qw qx qy qz lp =>
    obtain ⟨⟨hst, him⟩, hfl⟩ :
        (st < 256 ∧ im < 2 ^ 32) ∧
          ∀ v ∈ [t, al, ve, ac, pr, te, ba, ax, ay, az, av, gx, gy, gz, qw, qx, qy, qz, lp],
            v < 2 ^ 32 := by
      simpa [validRecord, floatFields, Bool.and_eq_true, decide_eq_true_eq,
        List.all_eq_true] using hv
    have h01 := hfl t (by simp)
    have h02 := hfl al (by simp)
    have h03 := hfl ve (by simp)
    have h04 := hfl ac (by simp)
    have h05 := hfl pr (by simp)
    have h06 := hfl te (by simp)
    have h07 := hfl ba (by simp)
    have h08 := hfl ax (by simp)
    have h09 := hfl ay (by simp)
    have h10 := hfl az (by simp)
    have h11 := hfl av (by simp)
    have h12 := hfl gx (by simp)
    have h13 := hfl gy (by simp)
    have h14 := hfl gz (by simp)
    have h15 := hfl qw (by simp)
    have h16 := hfl qx (by simp)
    have h17 := hfl qy (by simp)
    have h18 := hfl qz (by simp)
    have h19 := hfl lp (by simp)
    simp only [encodeRecord, le32, List.cons_append, List.nil_append]
    simp only [parseRecord, rd32, byteAt, List.getD_cons_zero, List.getD_cons_succ]
    simp only [MainStateVector.mk.injEq]
    refine ⟨?_, ?_, ?_, ?_, ?_, ?_, ?_, ?_, ?_, ?_, ?_, ?_, ?_, ?_, ?_, ?_, ?_, ?_, ?_, ?_,
      ?_⟩ <;> first
      | trivial
      | omega

/-- Witness for C9 at the all-zero record. -/
theorem C9_roundtrip_witness :
    validRecord zeroRecord = true ∧ parseRecord (encodeRecord zeroRecord) = zeroRecord :=
  ⟨by decide, C9_roundtrip zeroRecord (by decide)⟩

end Telem
